import Mathlib

/-!
Verification of the live-trading execution layer (zipline `algorithm_live.py`
and its tests).  Time is measured in whole minutes as integers; the clock's
wait quantum is one minute, so the simulated time source of the tests
("advances exactly one minute per wait call") is the successor function on
raw time.  Components whose code is not part of the excerpt (the realtime
clock, the historical simulation clock, the serialization helpers and the
phase-gating decorators) are modelled from the spec, as marked on each
definition.
-/

namespace Zipline

/-- Kind of a scheduling event, from the spec's data model:
`kind ∈ {SESSION_START, BEFORE_TRADING_START, BAR, SESSION_END}`. -/
inductive ClockEventKind
  | sessionStart
  | beforeTradingStart
  | bar
  | sessionEnd
deriving DecidableEq, Repr

/-- A `ClockEvent` is a `(timestamp, kind)` pair, emitted and never mutated. -/
structure ClockEvent where
  ts : Int
  kind : ClockEventKind
deriving DecidableEq, Repr

/-- One trading day as scheduled by the calendar collaborator (spec §3):
the session's calendar date (as the timestamp of its midnight), the
execution open/close bounds and the pre-market (before-trading-start)
minute. -/
structure TradingSession where
  session_date : Int
  execution_open : Int
  execution_close : Int
  before_trading_start_minute : Int
deriving DecidableEq, Repr

/-- Modelled from the spec: step 3 of the LiveClock per-session algorithm
(`RealtimeClock` is not part of the excerpt).  Poll, advancing raw time by
the one-minute wait quantum, until `effective_now = raw + skew` reaches the
pre-market minute, in which case `BEFORE_TRADING_START` is emitted at the
current effective time; reaching `execution_close` first (possible only if
the calendar violates `pre_market_minute ≤ execution_close`) ends the
session with no pre-market event.  Returns the optional event and the raw
time at which polling stopped. -/
def pollForBTS (skew bts close : Int) (t : Int) : Option ClockEvent × Int :=
  if h1 : bts ≤ t + skew then (some ⟨t + skew, ClockEventKind.beforeTradingStart⟩, t)
  else if h2 : close ≤ t + skew then (none, t)
  else pollForBTS skew bts close (t + 1)
termination_by (bts - (t + skew)).toNat
decreasing_by
  simp_wf
  omega

/-- Modelled from the spec: step 4 of the LiveClock per-session algorithm
with per-minute bar granularity.  On each poll a `BAR` is emitted at the
current effective minute, until the execution close is reached; the bar at
the close minute is the session's last.  Returns the events and the raw
time at which polling stopped. -/
def pollBarsMinute (skew close : Int) (t : Int) : List ClockEvent × Int :=
  if _h1 : t + skew < close then
    (⟨t + skew, ClockEventKind.bar⟩ :: (pollBarsMinute skew close (t + 1)).1,
      (pollBarsMinute skew close (t + 1)).2)
  else if _h2 : t + skew = close then ([⟨t + skew, ClockEventKind.bar⟩], t)
  else ([], t)
termination_by (close - (t + skew)).toNat
decreasing_by
  simp_wf
  omega

/-- Modelled from the spec: step 4 of the LiveClock per-session algorithm
with per-session bar granularity.  Wait until the effective time reaches
the execution close and emit the session's single aggregate `BAR` there. -/
def pollBarSession (skew close : Int) (t : Int) : List ClockEvent × Int :=
  if h1 : close ≤ t + skew then ([⟨t + skew, ClockEventKind.bar⟩], t)
  else pollBarSession skew close (t + 1)
termination_by (close - (t + skew)).toNat
decreasing_by
  simp_wf
  omega

/-- Modelled from the spec: the bar-emission phase, selected by the
`minute_emission` flag. -/
def barPhase (minute_emission : Bool) (skew close : Int) (t : Int) :
    List ClockEvent × Int :=
  if minute_emission then pollBarsMinute skew close t else pollBarSession skew close t

/-- Modelled from the spec: one session of the LiveClock (§4.1), entered
with the raw clock at `t`.  `SESSION_START` always fires, carrying the
session's date (the tests record that it "always happens at 00:00").  If
the effective time is already at or past the close the session contributes
no further events (step 2).  If it is already strictly past the pre-market
minute the pre-market event is skipped (mid-session start) and bar
emission begins at the current minute.  Otherwise the clock polls to the
pre-market minute, emits `BEFORE_TRADING_START`, waits one quantum and
enters the bar phase; `SESSION_END` is emitted at the close.  Returns the
session's events and the raw time after the session. -/
def runSession (minute_emission : Bool) (skew : Int) (s : TradingSession) (t : Int) :
    List ClockEvent × Int :=
  if s.execution_close ≤ t + skew then
    ([⟨s.session_date, ClockEventKind.sessionStart⟩], t)
  else if s.before_trading_start_minute < t + skew then
    (⟨s.session_date, ClockEventKind.sessionStart⟩ ::
        (barPhase minute_emission skew s.execution_close t).1 ++
        [⟨(barPhase minute_emission skew s.execution_close t).2 + skew,
          ClockEventKind.sessionEnd⟩],
      (barPhase minute_emission skew s.execution_close t).2)
  else
    match pollForBTS skew s.before_trading_start_minute s.execution_close t with
    | (some e, t1) =>
      (⟨s.session_date, ClockEventKind.sessionStart⟩ ::
          e :: (barPhase minute_emission skew s.execution_close (t1 + 1)).1 ++
          [⟨(barPhase minute_emission skew s.execution_close (t1 + 1)).2 + skew,
            ClockEventKind.sessionEnd⟩],
        (barPhase minute_emission skew s.execution_close (t1 + 1)).2)
    | (none, t1) => ([⟨s.session_date, ClockEventKind.sessionStart⟩], t1)

/-- Modelled from the spec: the LiveClock run over an ordered session list,
threading the raw clock from session to session.  The replay harness of the
tests advances the raw clock one minute per wait, which is the recursion in
the polling functions; `skew` is the clock-offset duration added on every
read of the time source. -/
def runClock (minute_emission : Bool) (skew : Int) (sessions : List TradingSession)
    (t : Int) : List ClockEvent :=
  match sessions with
  | [] => []
  | s :: rest =>
    (runSession minute_emission skew s t).1 ++
      runClock minute_emission skew rest (runSession minute_emission skew s t).2

/-- Bars at the `n` consecutive minutes starting at `a`. -/
def barsFromCount (a : Int) : Nat → List ClockEvent
  | 0 => []
  | n + 1 => ⟨a, ClockEventKind.bar⟩ :: barsFromCount (a + 1) n

/-- Bars at every whole minute of the closed interval `[a, b]`. -/
def barsFromTo (a b : Int) : List ClockEvent :=
  barsFromCount a (b + 1 - a).toNat

/-- Modelled from the spec: the historical simulation clock's output for one
session (`MinuteSimulationClock` is not part of the excerpt; this is the
reference sequence of the refinement claim).  `SESSION_START` at the
session's date, `BEFORE_TRADING_START` at the pre-market minute, then bars
at every whole minute of `(pre_market_minute, execution_close]` under
per-minute granularity or the single aggregate bar at the close, and
`SESSION_END` at the close. -/
def sessionEventsSpec (minute_emission : Bool) (s : TradingSession) : List ClockEvent :=
  ⟨s.session_date, ClockEventKind.sessionStart⟩ ::
    ⟨s.before_trading_start_minute, ClockEventKind.beforeTradingStart⟩ ::
    (if minute_emission then
        barsFromTo (s.before_trading_start_minute + 1) s.execution_close
      else [⟨s.execution_close, ClockEventKind.bar⟩]) ++
    [⟨s.execution_close, ClockEventKind.sessionEnd⟩]

/-- Modelled from the spec: the historical simulation clock's full output
over a session list. -/
def minuteSimulationClock (minute_emission : Bool) (sessions : List TradingSession) :
    List ClockEvent :=
  match sessions with
  | [] => []
  | s :: rest => sessionEventsSpec minute_emission s ++ minuteSimulationClock minute_emission rest

/-- A session schedule is well formed from effective time `e` when each
session's pre-market minute is no earlier than the clock's effective time
on entering the session and strictly before the session's close (spec §3:
`pre_market_minute ≤ execution_close`, sessions ascending). -/
def wellFormedFrom (e : Int) : List TradingSession → Prop
  | [] => True
  | s :: rest =>
    e ≤ s.before_trading_start_minute ∧
      s.before_trading_start_minute < s.execution_close ∧
      wellFormedFrom s.execution_close rest

/-- Attribute names of the algorithm context (Python attribute names). -/
abbrev AttrName := String

/-- Serialized attribute values; their structure is irrelevant to the
checkpointing logic, so they are modelled as numbers. -/
abbrev Value := Nat

/-- The context's attribute dictionary (`self.__dict__`): an association
list from attribute name to value, newest binding first. -/
abbrev Attrs := List (AttrName × Value)

/-- The on-disk checkpoint artifact: a serialized payload tagged with the
checksum it was saved under. -/
structure Checkpoint where
  checksum : String
  payload : Attrs
deriving DecidableEq, Repr

/-- The filesystem-like store: paths mapped to checkpoint artifacts, newest
write first. -/
abbrev FileSystem := List (String × Checkpoint)

/-- Write (or overwrite) the artifact at `path`. -/
def setFile (fs : FileSystem) (path : String) (cp : Checkpoint) : FileSystem :=
  (path, cp) :: fs

/-- Read the artifact at `path`, if present. -/
def getFile (fs : FileSystem) (path : String) : Option Checkpoint :=
  fs.lookup path

/-- Does a file exist at `path` (`os.path.isfile`)? -/
def isfile (fs : FileSystem) (path : String) : Bool :=
  (getFile fs path).isSome

/-- Modelled from the spec: `store_context` of
`zipline.utils.serialization_utils` (not part of the excerpt) serializes
every attribute of the context whose name is not in the exclusion list into
a durable artifact at `path`, tagged with `checksum`. -/
def store_context (fs : FileSystem) (path : String) (context : Attrs)
    (checksum : String) (exclude_list : List AttrName) : FileSystem :=
  setFile fs path ⟨checksum, context.filter (fun kv => !(exclude_list.contains kv.1))⟩

/-- Failure modes of restoring a checkpoint. -/
inductive LoadError
  | fileNotFound
  | checksumMismatch
deriving DecidableEq, Repr

/-- Set one attribute on the context, replacing any previous binding. -/
def setAttr (context : Attrs) (k : AttrName) (v : Value) : Attrs :=
  (k, v) :: context.filter (fun kv => kv.1 != k)

/-- Apply a restored payload to the context: each persisted attribute is set
on it in turn. -/
def applyPayload (context : Attrs) (payload : Attrs) : Attrs :=
  payload.foldl (fun acc kv => setAttr acc kv.1 kv.2) context

/-- Modelled from the spec: `load_context` of
`zipline.utils.serialization_utils` (not part of the excerpt) reads the
artifact at `path`, verifies its stored checksum equals `checksum`, and on
success applies each persisted attribute to the context; on mismatch it
fails with a distinct error and the context is untouched. -/
def load_context (fs : FileSystem) (path : String) (context : Attrs)
    (checksum : String) : Except LoadError Attrs :=
  match getFile fs path with
  | none => Except.error LoadError.fileNotFound
  | some cp =>
    if cp.checksum = checksum then Except.ok (applyPayload context cp.payload)
    else Except.error LoadError.checksumMismatch

/-- The live algorithm driver's state (`LiveTradingAlgorithm`): the
constructor arguments it keeps, the exclusion list, and the context's
attribute dictionary.  The algorithm's source text (`script`) is carried so
that the checksum's (in)dependence on it can be stated. -/
structure LiveTradingAlgorithm where
  algo_filename : String
  script : String
  state_filename : String
  context_persistence_excludes : List AttrName
  attrs : Attrs
deriving DecidableEq, Repr

/-- `LiveTradingAlgorithm.__init__`: `algo_filename` defaults to
`"<algorithm>"` when the keyword argument is absent, and the exclusion list
starts empty. -/
def mkLiveTradingAlgorithm (algo_filename : Option String) (script : String)
    (state_filename : String) (initialAttrs : Attrs) : LiveTradingAlgorithm :=
  { algo_filename := algo_filename.getD "<algorithm>"
    script := script
    state_filename := state_filename
    context_persistence_excludes := []
    attrs := initialAttrs }

/-- The checksum value the driver passes to `store_context` and
`load_context`: it is `self.algo_filename`, at both call sites. -/
def checksumArg (a : LiveTradingAlgorithm) : String :=
  a.algo_filename

/-- `LiveTradingAlgorithm.initialize`: first the exclusion list is computed
from the attribute names present at this moment plus `'trading_client'`;
then, if a checkpoint file exists at the state path, state is loaded from
it and the user's setup callback is never invoked; otherwise the setup
callback runs inside the `ZiplineAPI` scope (`userInit` receives `true` for
"API available") and a checkpoint is stored.  The returned flag records
whether the setup callback ran. -/
def initializeAlgo (userInit : Bool → Attrs → Attrs) (a : LiveTradingAlgorithm)
    (fs : FileSystem) : Except LoadError (LiveTradingAlgorithm × FileSystem × Bool) :=
  let a0 := { a with
    context_persistence_excludes := a.attrs.map Prod.fst ++ ["trading_client"] }
  if isfile fs a0.state_filename then
    match load_context fs a0.state_filename a0.attrs (checksumArg a0) with
    | Except.ok attrs2 => Except.ok ({ a0 with attrs := attrs2 }, fs, false)
    | Except.error e => Except.error e
  else
    let a1 := { a0 with attrs := userInit true a0.attrs }
    Except.ok (a1,
      store_context fs a1.state_filename a1.attrs (checksumArg a1)
        a1.context_persistence_excludes,
      true)

/-- `LiveTradingAlgorithm.handle_data`: the inherited per-bar handling runs
(the user callback `userHandle` mutates the context), then a checkpoint of
the context's non-excluded state is stored at the state path. -/
def handle_data (userHandle : Attrs → Attrs) (a : LiveTradingAlgorithm)
    (fs : FileSystem) : LiveTradingAlgorithm × FileSystem :=
  let a1 := { a with attrs := userHandle a.attrs }
  (a1,
    store_context fs a1.state_filename a1.attrs (checksumArg a1)
      a1.context_persistence_excludes)

/-- Iterate `handle_data` over `n` bars. -/
def iterateHandleData (userHandle : Attrs → Attrs) :
    Nat → LiveTradingAlgorithm × FileSystem → LiveTradingAlgorithm × FileSystem
  | 0, p => p
  | n + 1, p => iterateHandleData userHandle n (handle_data userHandle p.1 p.2)

/-- Errors raised by the phase-gated and unimplemented API methods. -/
inductive TradingError
  | orderInBeforeTradingStart
  | scheduleFunctionOutsideTradingStart
  | notImplemented
deriving DecidableEq, Repr

/-- The broker collaborator's observable state: orders placed with it and
order ids whose cancellation was requested. -/
structure BrokerState where
  placed : List (String × Int)
  cancelled : List String
deriving DecidableEq, Repr

/-- `LiveTradingAlgorithm.order`, modelled from the spec for the decorator
`disallowed_in_before_trading_start(OrderInBeforeTradingStart())` whose
body is not part of the excerpt: a call made during the
before-trading-start phase is rejected with `OrderInBeforeTradingStart`
before anything else runs, so no broker order is placed; otherwise the
order is forwarded to the broker. -/
def orderMethod (inBeforeTradingStart : Bool) (broker : BrokerState)
    (assetSym : String) (amount : Int) : Except TradingError BrokerState :=
  if inBeforeTradingStart then Except.error TradingError.orderInBeforeTradingStart
  else Except.ok { broker with placed := broker.placed ++ [(assetSym, amount)] }

/-- `LiveTradingAlgorithm.schedule_function`, modelled from the spec for the
decorator `allowed_only_in_before_trading_start(...)` whose body is not
part of the excerpt: a call made outside the before-trading-start phase is
rejected with `ScheduleFunctionOutsideTradingStart`; inside it, the
function (an opaque handle) is scheduled. -/
def schedule_function (inBeforeTradingStart : Bool) (scheduled : List Nat)
    (func : Nat) : Except TradingError (List Nat) :=
  if inBeforeTradingStart then Except.ok (scheduled ++ [func])
  else Except.error TradingError.scheduleFunctionOutsideTradingStart

/-- `LiveTradingAlgorithm.batch_market_order`: raises `NotImplementedError`
unconditionally. -/
def batch_market_order (broker : BrokerState) (share_counts : List Int) :
    Except TradingError BrokerState :=
  Except.error TradingError.notImplemented

/-- An order object of `zipline.protocol` (`zp.Order`), with its id. -/
structure ZPOrder where
  id : String
  amount : Int
deriving DecidableEq, Repr

/-- The argument of `cancel_order`: either a `zp.Order` object or a bare
order identifier (the `isinstance(order_param, zp.Order)` test). -/
inductive OrderParam
  | ord (o : ZPOrder)
  | ident (s : String)
deriving DecidableEq, Repr

/-- `LiveTradingAlgorithm.cancel_order`: an `Order` object's `id` field is
forwarded to the broker's `cancel_order`, any other value is forwarded
unchanged. -/
def cancel_order (broker : BrokerState) (order_param : OrderParam) : BrokerState :=
  let order_id := match order_param with
    | OrderParam.ord o => o.id
    | OrderParam.ident s => s
  { broker with cancelled := broker.cancelled ++ [order_id] }

/-- An asset as `Asset.to_dict`/`Asset.from_dict` of `zipline.assets` round
it: its fields, with dates as integer timestamps. -/
structure Asset where
  sid : Nat
  symbol : String
  asset_name : String
  exchange : String
  start_date : Int
  end_date : Int
  first_traded : Int
  auto_close_date : Int
deriving DecidableEq, Repr

/-- Ten thousand days, in minutes. -/
def tenThousandDays : Int := 10000 * 1440

/-- `LiveTradingAlgorithm.symbol`: the base lookup's asset (the inherited
`symbol`, abstracted as `baseLookup`) is converted to a dict, its
`end_date` is set to the current time plus 10,000 days, its
`auto_close_date` to that same new `end_date`, and the asset is rebuilt
from the dict. -/
def symbolMethod (baseLookup : String → Option Asset) (now : Int)
    (symbol_str : String) : Option Asset :=
  match baseLookup symbol_str with
  | none => none
  | some asset =>
    some { asset with
      end_date := now + tenThousandDays
      auto_close_date := now + tenThousandDays }

/-- A concrete user setup callback for witnesses: it records one strategy
attribute on the context. -/
def sampleInit : Bool → Attrs → Attrs := fun _ attrs => ("mystate", 1) :: attrs

/-- A concrete algorithm for witnesses: constructed without the
`algo_filename` keyword, with one pre-existing engine attribute. -/
def sampleAlgo : LiveTradingAlgorithm :=
  mkLiveTradingAlgorithm none "script" "state" [("broker", 0)]

/-- The algorithm state `sampleAlgo`'s first-time initialization produces. -/
def sampleAlgo1 : LiveTradingAlgorithm :=
  { algo_filename := "<algorithm>"
    script := "script"
    state_filename := "state"
    context_persistence_excludes := ["broker", "trading_client"]
    attrs := [("mystate", 1), ("broker", 0)] }

/-- The filesystem `sampleAlgo`'s first-time initialization produces. -/
def sampleFs1 : FileSystem := [("state", ⟨"<algorithm>", [("mystate", 1)]⟩)]

/-- A concrete asset for witnesses. -/
def sampleAsset : Asset := ⟨1, "AAPL", "Apple", "NASDAQ", 0, 100, 0, 100⟩

/-- A concrete base symbol lookup for witnesses. -/
def sampleLookup : String → Option Asset :=
  fun s => if s = "AAPL" then some sampleAsset else none

/-! Helper lemmas about the clock's polling loops. -/

theorem barsFromTo_self (a : Int) : barsFromTo a a = [⟨a, ClockEventKind.bar⟩] := by
  unfold barsFromTo
  rw [show (a + 1 - a).toNat = 1 from by omega]
  rfl

theorem barsFromTo_cons (a b : Int) (h : a ≤ b) :
    barsFromTo a b = ⟨a, ClockEventKind.bar⟩ :: barsFromTo (a + 1) b := by
  unfold barsFromTo
  rw [show (b + 1 - a).toNat = (b + 1 - (a + 1)).toNat + 1 from by omega]
  rfl

theorem pollForBTS_eval (skew bts close : Int) (hbc : bts ≤ close) :
    ∀ t : Int, t + skew ≤ bts →
      pollForBTS skew bts close t =
        (some ⟨bts, ClockEventKind.beforeTradingStart⟩, bts - skew) := by
  have H : ∀ n : Nat, ∀ t : Int, (bts - (t + skew)).toNat = n → t + skew ≤ bts →
      pollForBTS skew bts close t =
        (some ⟨bts, ClockEventKind.beforeTradingStart⟩, bts - skew) := by
    intro n
    induction n with
    | zero =>
      intro t hn ht
      have heq : t + skew = bts := by omega
      unfold pollForBTS
      rw [dif_pos (by omega : bts ≤ t + skew)]
      rw [Prod.mk.injEq, Option.some.injEq, ClockEvent.mk.injEq]
      exact ⟨⟨heq, rfl⟩, by omega⟩
    | succ n ih =>
      intro t hn ht
      unfold pollForBTS
      rw [dif_neg (by omega : ¬ bts ≤ t + skew), dif_neg (by omega : ¬ close ≤ t + skew)]
      exact ih (t + 1) (by omega) (by omega)
  intro t ht
  exact H (bts - (t + skew)).toNat t rfl ht

theorem pollBarsMinute_eval (skew close : Int) :
    ∀ t : Int, t + skew ≤ close →
      pollBarsMinute skew close t = (barsFromTo (t + skew) close, close - skew) := by
  have H : ∀ n : Nat, ∀ t : Int, (close - (t + skew)).toNat = n → t + skew ≤ close →
      pollBarsMinute skew close t = (barsFromTo (t + skew) close, close - skew) := by
    intro n
    induction n with
    | zero =>
      intro t hn ht
      have heq : t + skew = close := by omega
      unfold pollBarsMinute
      rw [dif_neg (by omega : ¬ t + skew < close), dif_pos heq]
      rw [heq, barsFromTo_self, Prod.mk.injEq]
      exact ⟨rfl, by omega⟩
    | succ n ih =>
      intro t hn ht
      have hlt : t + skew < close := by omega
      unfold pollBarsMinute
      rw [dif_pos hlt, ih (t + 1) (by omega) (by omega)]
      rw [barsFromTo_cons (t + skew) close (le_of_lt hlt)]
      rw [show t + 1 + skew = t + skew + 1 from by omega]
  intro t ht
  exact H (close - (t + skew)).toNat t rfl ht

theorem pollBarSession_eval (skew close : Int) :
    ∀ t : Int, t + skew ≤ close →
      pollBarSession skew close t = ([⟨close, ClockEventKind.bar⟩], close - skew) := by
  have H : ∀ n : Nat, ∀ t : Int, (close - (t + skew)).toNat = n → t + skew ≤ close →
      pollBarSession skew close t = ([⟨close, ClockEventKind.bar⟩], close - skew) := by
    intro n
    induction n with
    | zero =>
      intro t hn ht
      have heq : t + skew = close := by omega
      unfold pollBarSession
      rw [dif_pos (by omega : close ≤ t + skew)]
      rw [heq, Prod.mk.injEq]
      exact ⟨rfl, by omega⟩
    | succ n ih =>
      intro t hn ht
      unfold pollBarSession
      rw [dif_neg (by omega : ¬ close ≤ t + skew)]
      exact ih (t + 1) (by omega) (by omega)
  intro t ht
  exact H (close - (t + skew)).toNat t rfl ht

theorem barPhase_eval (minute_emission : Bool) (skew close t : Int) (h : t + skew ≤ close) :
    barPhase minute_emission skew close t =
      ((if minute_emission then barsFromTo (t + skew) close
          else [⟨close, ClockEventKind.bar⟩]),
        close - skew) := by
  cases minute_emission with
  | false =>
    simp only [barPhase, Bool.false_eq_true, if_false]
    exact pollBarSession_eval skew close t h
  | true =>
    simp only [barPhase, if_true]
    exact pollBarsMinute_eval skew close t h

theorem runSession_eval (minute_emission : Bool) (skew : Int) (s : TradingSession)
    (t : Int) (h1 : t + skew ≤ s.before_trading_start_minute)
    (h2 : s.before_trading_start_minute < s.execution_close) :
    runSession minute_emission skew s t =
      (sessionEventsSpec minute_emission s, s.execution_close - skew) := by
  have hp := pollForBTS_eval skew s.before_trading_start_minute s.execution_close
    (le_of_lt h2) t h1
  have hb := barPhase_eval minute_emission skew s.execution_close
    (s.before_trading_start_minute - skew + 1)
    (by omega : s.before_trading_start_minute - skew + 1 + skew ≤ s.execution_close)
  rw [show s.before_trading_start_minute - skew + 1 + skew =
      s.before_trading_start_minute + 1 from by omega] at hb
  unfold runSession
  rw [if_neg (by omega : ¬ s.execution_close ≤ t + skew),
    if_neg (by omega : ¬ s.before_trading_start_minute < t + skew), hp]
  simp only [hb, sessionEventsSpec, Int.sub_add_cancel]

theorem runClock_eval (minute_emission : Bool) (skew : Int) :
    ∀ (sessions : List TradingSession) (t : Int),
      wellFormedFrom (t + skew) sessions →
        runClock minute_emission skew sessions t =
          minuteSimulationClock minute_emission sessions := by
  intro sessions
  induction sessions with
  | nil => intro t _; rfl
  | cons s rest ih =>
    intro t h
    obtain ⟨hA, hB, hC⟩ := h
    simp only [runClock, minuteSimulationClock]
    rw [runSession_eval minute_emission skew s t hA hB]
    rw [ih (s.execution_close - skew) (by rwa [Int.sub_add_cancel])]

theorem pollForBTS_shift (skew bts close : Int) :
    ∀ t : Int, pollForBTS skew bts close t =
      ((pollForBTS 0 bts close (t + skew)).1,
        (pollForBTS 0 bts close (t + skew)).2 - skew) := by
  have H : ∀ n : Nat, ∀ t : Int, (bts - (t + skew)).toNat = n →
      pollForBTS skew bts close t =
        ((pollForBTS 0 bts close (t + skew)).1,
          (pollForBTS 0 bts close (t + skew)).2 - skew) := by
    intro n
    induction n with
    | zero =>
      intro t hn
      have hle : bts ≤ t + skew := by omega
      unfold pollForBTS
      rw [dif_pos hle, dif_pos (by omega : bts ≤ t + skew + 0)]
      rw [Prod.mk.injEq, Option.some.injEq, ClockEvent.mk.injEq]
      exact ⟨⟨by omega, rfl⟩, by omega⟩
    | succ n ih =>
      intro t hn
      have hlt : t + skew < bts := by omega
      unfold pollForBTS
      rw [dif_neg (by omega : ¬ bts ≤ t + skew),
        dif_neg (by omega : ¬ bts ≤ t + skew + 0)]
      by_cases hc : close ≤ t + skew
      · rw [dif_pos hc, dif_pos (by omega : close ≤ t + skew + 0)]
        rw [Prod.mk.injEq]
        exact ⟨rfl, by omega⟩
      · rw [dif_neg hc, dif_neg (by omega : ¬ close ≤ t + skew + 0)]
        rw [ih (t + 1) (by omega)]
        rw [show t + 1 + skew = t + skew + 1 from by omega]
  intro t
  exact H (bts - (t + skew)).toNat t rfl

theorem pollBarsMinute_shift (skew close : Int) :
    ∀ t : Int, pollBarsMinute skew close t =
      ((pollBarsMinute 0 close (t + skew)).1,
        (pollBarsMinute 0 close (t + skew)).2 - skew) := by
  have H : ∀ n : Nat, ∀ t : Int, (close - (t + skew)).toNat = n →
      pollBarsMinute skew close t =
        ((pollBarsMinute 0 close (t + skew)).1,
          (pollBarsMinute 0 close (t + skew)).2 - skew) := by
    intro n
    induction n with
    | zero =>
      intro t hn
      have hge : ¬ t + skew < close := by omega
      unfold pollBarsMinute
      rw [dif_neg hge, dif_neg (by omega : ¬ t + skew + 0 < close)]
      by_cases he : t + skew = close
      · rw [dif_pos he, dif_pos (by omega : t + skew + 0 = close)]
        rw [Prod.mk.injEq, List.cons.injEq, ClockEvent.mk.injEq]
        exact ⟨⟨⟨by omega, rfl⟩, rfl⟩, by omega⟩
      · rw [dif_neg he, dif_neg (by omega : ¬ t + skew + 0 = close)]
        rw [Prod.mk.injEq]
        exact ⟨rfl, by omega⟩
    | succ n ih =>
      intro t hn
      have hlt : t + skew < close := by omega
      unfold pollBarsMinute
      rw [dif_pos hlt, dif_pos (by omega : t + skew + 0 < close)]
      rw [ih (t + 1) (by omega)]
      rw [show t + 1 + skew = t + skew + 1 from by omega]
      simp only [add_zero]
  intro t
  exact H (close - (t + skew)).toNat t rfl

theorem pollBarSession_shift (skew close : Int) :
    ∀ t : Int, pollBarSession skew close t =
      ((pollBarSession 0 close (t + skew)).1,
        (pollBarSession 0 close (t + skew)).2 - skew) := by
  have H : ∀ n : Nat, ∀ t : Int, (close - (t + skew)).toNat = n →
      pollBarSession skew close t =
        ((pollBarSession 0 close (t + skew)).1,
          (pollBarSession 0 close (t + skew)).2 - skew) := by
    intro n
    induction n with
    | zero =>
      intro t hn
      have hge : close ≤ t + skew := by omega
      unfold pollBarSession
      rw [dif_pos hge, dif_pos (by omega : close ≤ t + skew + 0)]
      rw [Prod.mk.injEq, List.cons.injEq, ClockEvent.mk.injEq]
      exact ⟨⟨⟨by omega, rfl⟩, rfl⟩, by omega⟩
    | succ n ih =>
      intro t hn
      unfold pollBarSession
      rw [dif_neg (by omega : ¬ close ≤ t + skew),
        dif_neg (by omega : ¬ close ≤ t + skew + 0)]
      rw [ih (t + 1) (by omega)]
      rw [show t + 1 + skew = t + skew + 1 from by omega]
  intro t
  exact H (close - (t + skew)).toNat t rfl

theorem barPhase_shift (minute_emission : Bool) (skew close t : Int) :
    barPhase minute_emission skew close t =
      ((barPhase minute_emission 0 close (t + skew)).1,
        (barPhase minute_emission 0 close (t + skew)).2 - skew) := by
  cases minute_emission with
  | false => exact pollBarSession_shift skew close t
  | true => exact pollBarsMinute_shift skew close t

theorem runSession_shift (minute_emission : Bool) (skew : Int) (s : TradingSession)
    (t : Int) :
    runSession minute_emission skew s t =
      ((runSession minute_emission 0 s (t + skew)).1,
        (runSession minute_emission 0 s (t + skew)).2 - skew) := by
  unfold runSession
  by_cases hc : s.execution_close ≤ t + skew
  · rw [if_pos hc, if_pos (by omega : s.execution_close ≤ t + skew + 0)]
    rw [Prod.mk.injEq]
    exact ⟨rfl, by omega⟩
  · rw [if_neg hc, if_neg (by omega : ¬ s.execution_close ≤ t + skew + 0)]
    by_cases hm : s.before_trading_start_minute < t + skew
    · rw [if_pos hm, if_pos (by omega : s.before_trading_start_minute < t + skew + 0)]
      rw [barPhase_shift minute_emission skew s.execution_close t]
      simp only [add_zero, Int.sub_add_cancel]
    · rw [if_neg hm, if_neg (by omega : ¬ s.before_trading_start_minute < t + skew + 0)]
      rw [pollForBTS_shift skew s.before_trading_start_minute s.execution_close t]
      rcases hX : pollForBTS 0 s.before_trading_start_minute s.execution_close (t + skew)
        with ⟨oe, t1⟩
      cases oe with
      | none => rfl
      | some e =>
        dsimp only
        rw [barPhase_shift minute_emission skew s.execution_close (t1 - skew + 1)]
        rw [show t1 - skew + 1 + skew = t1 + 1 from by omega]
        simp only [add_zero, Int.sub_add_cancel]

/-- Model validation against `test_afterhours_start`: a clock started at or
after the only session's close emits exactly one event, `SESSION_START`. -/
theorem runClock_afterhours_single_session (minute_emission : Bool) (skew : Int)
    (s : TradingSession) (t : Int) (h : s.execution_close ≤ t + skew) :
    runClock minute_emission skew [s] t =
      [⟨s.session_date, ClockEventKind.sessionStart⟩] := by
  simp only [runClock, runSession]
  rw [if_pos h]
  rfl

/-- Model validation against `test_midday_start` and spec section 8: a
session entered strictly between the pre-market minute and the close
yields `SESSION_START` followed directly by bar events from the current
minute onward, omitting `BEFORE_TRADING_START`. -/
theorem runSession_midsession (minute_emission : Bool) (skew : Int)
    (s : TradingSession) (t : Int)
    (h1 : s.before_trading_start_minute < t + skew)
    (h2 : t + skew < s.execution_close) :
    runSession minute_emission skew s t =
      (⟨s.session_date, ClockEventKind.sessionStart⟩ ::
        (if minute_emission then barsFromTo (t + skew) s.execution_close
          else [⟨s.execution_close, ClockEventKind.bar⟩]) ++
        [⟨s.execution_close, ClockEventKind.sessionEnd⟩],
        s.execution_close - skew) := by
  rw [runSession, if_neg (by omega : ¬ s.execution_close ≤ t + skew), if_pos h1,
    barPhase_eval minute_emission skew s.execution_close t (le_of_lt h2)]
  simp only [Int.sub_add_cancel]

/-- Model validation for spec section 8's fingerprint rejection: restoring
against a checkpoint whose stored checksum differs fails with the distinct
mismatch error (the context argument is untouched by construction). -/
theorem load_context_checksum_mismatch (fs : FileSystem) (path : String)
    (context : Attrs) (checksum : String) (cp : Checkpoint)
    (hcp : getFile fs path = some cp) (hne : cp.checksum ≠ checksum) :
    load_context fs path context checksum = Except.error LoadError.checksumMismatch := by
  rw [load_context, hcp]
  simp only [if_neg hne]

/-- C2: for every session schedule and pre-market-minute sequence (well
formed: each session's pre-market minute lies between the clock's effective
time on entering the session and strictly before that session's close),
running the LiveClock with the simulated time source that advances exactly
one minute per wait call, with zero offset, starting at the first session's
midnight, produces a ClockEvent sequence identical — same length, kinds
and timestamps — to the historical MinuteSimulationClock's output for the
same inputs, for both per-minute and per-session bar granularity. -/
theorem realtimeclock_crosschecks_simulation_clock (minute_emission : Bool)
    (s : TradingSession) (rest : List TradingSession)
    (h : wellFormedFrom s.session_date (s :: rest)) :
    runClock minute_emission 0 (s :: rest) s.session_date =
      minuteSimulationClock minute_emission (s :: rest) :=
  runClock_eval minute_emission 0 (s :: rest) s.session_date (by rwa [add_zero])

/-- Witness for C2: a concrete one-session schedule (midnight 0, execution
open 5, close 10, pre-market minute 3), per-minute granularity. -/
theorem realtimeclock_crosschecks_simulation_clock_witness :
    runClock true 0 [⟨0, 5, 10, 3⟩] 0 = minuteSimulationClock true [⟨0, 5, 10, 3⟩] :=
  realtimeclock_crosschecks_simulation_clock true ⟨0, 5, 10, 3⟩ []
    ⟨by norm_num, by norm_num, trivial⟩

/-- C7 (counterexample): with the schedule (midnight 0, open 5, close 10,
pre-market 3) and the raw clock starting at 0, the clock with offset 1
emits exactly the same timestamps as the clock with offset 0 — the polled
events snap to the schedule's pre-market minute and close — so its output
is not the offset-0 output shifted later by 1. -/
theorem clock_offset_shift_counterexample :
    runClock false 1 [⟨0, 5, 10, 3⟩] 0 ≠
      (runClock false 0 [⟨0, 5, 10, 3⟩] 0).map
        (fun e => ⟨e.ts + 1, e.kind⟩) := by
  rw [runClock_eval false 1 [⟨0, 5, 10, 3⟩] 0 ⟨by norm_num, by norm_num, trivial⟩,
    runClock_eval false 0 [⟨0, 5, 10, 3⟩] 0 ⟨by norm_num, by norm_num, trivial⟩]
  decide

/-- C7 (amended): a clock-offset duration `d` is equivalent to translating
the raw time source: the LiveClock with offset `d` and raw start `t` emits
exactly the sequence of the LiveClock with offset `0` and raw start
`t + d`.  Emitted timestamps themselves need not shift by `d`:
`SESSION_START` is stamped with the session's date independently of the
offset, and polled events snap to the schedule's boundaries. -/
theorem clock_offset_translates_time_source (minute_emission : Bool) (skew : Int) :
    ∀ (sessions : List TradingSession) (t : Int),
      runClock minute_emission skew sessions t =
        runClock minute_emission 0 sessions (t + skew) := by
  intro sessions
  induction sessions with
  | nil => intro t; rfl
  | cons s rest ih =>
    intro t
    simp only [runClock]
    rw [runSession_shift minute_emission skew s t]
    rw [ih ((runSession minute_emission 0 s (t + skew)).2 - skew), Int.sub_add_cancel]

/-! Helper lemmas about the checkpoint store and the driver. -/

theorem getFile_setFile (fs : FileSystem) (path : String) (cp : Checkpoint) :
    getFile (setFile fs path cp) path = some cp := by
  simp [getFile, setFile, List.lookup]

theorem isfile_setFile (fs : FileSystem) (path : String) (cp : Checkpoint) :
    isfile (setFile fs path cp) path = true := by
  simp [isfile, getFile_setFile]

theorem getFile_isSome_of_isfile (fs : FileSystem) (path : String)
    (h : isfile fs path = true) : ∃ cp, getFile fs path = some cp := by
  cases hg : getFile fs path with
  | none => rw [isfile, hg] at h; simp at h
  | some cp => exact ⟨cp, rfl⟩

theorem filter_excludes (E : List AttrName) (name : AttrName) (attrs : Attrs)
    (h : name ∈ E) :
    name ∉ (attrs.filter (fun kv => !(E.contains kv.1))).map Prod.fst := by
  intro hmem
  rw [List.mem_map] at hmem
  obtain ⟨kv, hkv, hfst⟩ := hmem
  rw [List.mem_filter] at hkv
  have h2 := hkv.2
  rw [hfst] at h2
  simp at h2
  exact h2 h

theorem iterate_clean (uh : Attrs → Attrs) (name : AttrName) (path : String) :
    ∀ (n : Nat) (p : LiveTradingAlgorithm × FileSystem),
      p.1.state_filename = path →
      name ∈ p.1.context_persistence_excludes →
      (∀ cp, getFile p.2 path = some cp → name ∉ cp.payload.map Prod.fst) →
      ∀ cp, getFile (iterateHandleData uh n p).2 path = some cp →
        name ∉ cp.payload.map Prod.fst := by
  intro n
  induction n with
  | zero => intro p _ _ h3 cp hcp; exact h3 cp hcp
  | succ n ih =>
    intro p h1 h2 h3 cp hcp
    refine ih (handle_data uh p.1 p.2) h1 h2 ?_ cp hcp
    intro cp2 hcp2
    rw [handle_data] at hcp2
    simp only at hcp2
    rw [store_context, h1, getFile_setFile] at hcp2
    obtain rfl := Option.some.injEq .. ▸ hcp2
    exact filter_excludes p.1.context_persistence_excludes name _ h2

/-- C3: on process start, if a checkpoint file exists at the state path,
`initialize` never invokes the user's setup callback (its result does not
depend on it), writes nothing, and on success restores the context from the
file's payload; if no file exists, the setup callback runs inside the
scoped `ZiplineAPI` context (the `true` flag) and a checkpoint is then
saved; consequently across two consecutive runs sharing the same
checkpoint path and algorithm filename the setup callback executes exactly
once in total: in the first run and not in the second. -/
theorem initialize_restores_or_runs_setup_once :
    (∀ (uI uI2 : Bool → Attrs → Attrs) (a : LiveTradingAlgorithm) (fs : FileSystem),
      isfile fs a.state_filename = true →
        initializeAlgo uI a fs = initializeAlgo uI2 a fs ∧
        ∀ b fs2 ran, initializeAlgo uI a fs = Except.ok (b, fs2, ran) →
          ran = false ∧ fs2 = fs ∧
          ∃ cp, getFile fs a.state_filename = some cp ∧
            b.attrs = applyPayload a.attrs cp.payload) ∧
    (∀ (uI : Bool → Attrs → Attrs) (a : LiveTradingAlgorithm) (fs : FileSystem),
      isfile fs a.state_filename = false →
        ∃ a1 fs1, initializeAlgo uI a fs = Except.ok (a1, fs1, true) ∧
          a1.attrs = uI true a.attrs ∧ isfile fs1 a.state_filename = true) ∧
    (∀ (uI uI2 : Bool → Attrs → Attrs) (a a2 : LiveTradingAlgorithm) (fs : FileSystem),
      isfile fs a.state_filename = false →
      a2.state_filename = a.state_filename →
      a2.algo_filename = a.algo_filename →
        ∃ a1 fs1, initializeAlgo uI a fs = Except.ok (a1, fs1, true) ∧
          ∃ a3, initializeAlgo uI2 a2 fs1 = Except.ok (a3, fs1, false)) := by
  refine ⟨?_, ?_, ?_⟩
  · intro uI uI2 a fs h
    obtain ⟨cp, hcp⟩ := getFile_isSome_of_isfile fs a.state_filename h
    constructor
    · simp [initializeAlgo, h]
    · intro b fs2 ran hok
      rw [initializeAlgo] at hok
      simp only [h, if_true, load_context, hcp, checksumArg] at hok
      by_cases hsum : cp.checksum = a.algo_filename
      · rw [if_pos hsum] at hok
        simp only [Except.ok.injEq, Prod.mk.injEq] at hok
        obtain ⟨hb, hfs2, hran⟩ := hok
        refine ⟨hran.symm, hfs2.symm, cp, hcp, ?_⟩
        rw [← hb]
      · rw [if_neg hsum] at hok
        simp at hok
  · intro uI a fs h
    rw [initializeAlgo]
    simp only [h, Bool.false_eq_true, if_false]
    refine ⟨_, _, rfl, rfl, ?_⟩
    rw [store_context]
    exact isfile_setFile _ _ _
  · intro uI uI2 a a2 fs h hpath hsum
    rw [initializeAlgo]
    simp only [h, Bool.false_eq_true, if_false]
    refine ⟨_, _, rfl, ?_⟩
    rw [initializeAlgo]
    simp only [store_context, hpath, isfile_setFile, if_true, load_context,
      getFile_setFile, checksumArg, hsum]
    exact ⟨_, rfl⟩

/-- C4: the checkpoint exclusion set is computed in `initialize`,
immediately before first use, as the attribute names present on the context
at that moment plus the fixed name `trading_client`; consequently an
attribute that exists on the context before user initialization runs never
appears in the checkpoint written by `initialize` (take `n = 0`) nor in the
checkpoint written after any of the `n` subsequent `handle_data` bars. -/
theorem preinit_attrs_never_persisted (uI : Bool → Attrs → Attrs)
    (uh : Attrs → Attrs) (a : LiveTradingAlgorithm) (fs : FileSystem)
    (name : AttrName) (hname : name ∈ a.attrs.map Prod.fst)
    (hfile : isfile fs a.state_filename = false)
    (a1 : LiveTradingAlgorithm) (fs1 : FileSystem) (ran : Bool)
    (hrun : initializeAlgo uI a fs = Except.ok (a1, fs1, ran)) :
    a1.context_persistence_excludes = a.attrs.map Prod.fst ++ ["trading_client"] ∧
    ∀ (n : Nat) (cp : Checkpoint),
      getFile (iterateHandleData uh n (a1, fs1)).2 a.state_filename = some cp →
      name ∉ cp.payload.map Prod.fst := by
  rw [initializeAlgo] at hrun
  simp only [hfile] at hrun
  rw [if_neg (by simp)] at hrun
  rw [Except.ok.injEq, Prod.mk.injEq, Prod.mk.injEq] at hrun
  obtain ⟨ha1, hfs1, _⟩ := hrun
  have hexc : a1.context_persistence_excludes =
      a.attrs.map Prod.fst ++ ["trading_client"] := by rw [← ha1]
  refine ⟨hexc, ?_⟩
  intro n cp hcp
  refine iterate_clean uh name a.state_filename n (a1, fs1) ?_ ?_ ?_ cp hcp
  · rw [← ha1]
  · rw [hexc]
    exact List.mem_append_left _ hname
  · intro cp2 hcp2
    rw [← hfs1, store_context] at hcp2
    have : (a.state_filename, (⟨a.algo_filename,
        (uI true a.attrs).filter
          (fun kv => !((a.attrs.map Prod.fst ++ ["trading_client"]).contains kv.1))⟩ :
          Checkpoint)) :: fs = setFile fs a.state_filename _ := rfl
    rw [getFile_setFile] at hcp2
    obtain rfl := Option.some.injEq .. ▸ hcp2
    exact filter_excludes _ name _ (List.mem_append_left _ hname)

/-- C5: a checkpoint of the context's non-excluded state is written to the
configured state path on every return of `handle_data`, and once after
first-time initialization succeeds — not only on clean shutdown. -/
theorem checkpoint_after_every_bar_and_after_init :
    (∀ (uh : Attrs → Attrs) (a : LiveTradingAlgorithm) (fs : FileSystem),
      getFile (handle_data uh a fs).2 a.state_filename =
        some ⟨checksumArg a,
          (uh a.attrs).filter
            (fun kv => !(a.context_persistence_excludes.contains kv.1))⟩) ∧
    (∀ (uI : Bool → Attrs → Attrs) (a : LiveTradingAlgorithm) (fs : FileSystem),
      isfile fs a.state_filename = false →
        ∃ a1 fs1, initializeAlgo uI a fs = Except.ok (a1, fs1, true) ∧
          getFile fs1 a.state_filename =
            some ⟨checksumArg a,
              (uI true a.attrs).filter
                (fun kv =>
                  !((a.attrs.map Prod.fst ++ ["trading_client"]).contains kv.1))⟩) := by
  constructor
  · intro uh a fs
    rw [handle_data]
    simp only [store_context]
    exact getFile_setFile _ _ _
  · intro uI a fs h
    rw [initializeAlgo]
    simp only [h, Bool.false_eq_true, if_false]
    refine ⟨_, _, rfl, ?_⟩
    simp only [store_context]
    exact getFile_setFile _ _ _

/-- Witness for C3 at a concrete algorithm and an initially empty
filesystem: the first run executes setup (flag `true`), the second run
sharing the checkpoint path restores and does not (flag `false`). -/
theorem initialize_restores_or_runs_setup_once_witness :
    ∃ a1 fs1, initializeAlgo sampleInit sampleAlgo [] = Except.ok (a1, fs1, true) ∧
      ∃ a3, initializeAlgo sampleInit sampleAlgo fs1 = Except.ok (a3, fs1, false) :=
  initialize_restores_or_runs_setup_once.2.2 sampleInit sampleInit sampleAlgo
    sampleAlgo [] rfl rfl rfl

/-- Witness for C4: the pre-existing attribute `broker` of `sampleAlgo` is
not in the payload of the checkpoint its initialization writes. -/
theorem preinit_attrs_never_persisted_witness :
    "broker" ∉ (Checkpoint.mk "<algorithm>" [("mystate", 1)]).payload.map Prod.fst :=
  (preinit_attrs_never_persisted sampleInit id sampleAlgo [] "broker" (by decide) rfl
      sampleAlgo1 sampleFs1 true rfl).2 0 ⟨"<algorithm>", [("mystate", 1)]⟩ rfl

/-- Witness for C5: one `handle_data` bar on the initialized sample state
leaves a checkpoint at the state path. -/
theorem checkpoint_after_every_bar_witness :
    getFile (handle_data id sampleAlgo1 sampleFs1).2 sampleAlgo1.state_filename =
      some ⟨"<algorithm>", [("mystate", 1)]⟩ :=
  checkpoint_after_every_bar_and_after_init.1 id sampleAlgo1 sampleFs1

/-- C1 (code-bug evidence): the checksum the driver passes to
`store_context` and `load_context` is `algo_filename` — the configured
path string, defaulting to `"<algorithm>"` — so two algorithms at the same
filename with different source text share one checksum while the same
source at two filenames gets two: the checksum is a function of the path,
not of the source content. -/
theorem checksum_is_path_not_source_content :
    checksumArg (mkLiveTradingAlgorithm (some "algo.py") "x = 1" "state" []) =
      checksumArg (mkLiveTradingAlgorithm (some "algo.py") "x = 2" "state" []) ∧
    (mkLiveTradingAlgorithm (some "algo.py") "x = 1" "state" []).script ≠
      (mkLiveTradingAlgorithm (some "algo.py") "x = 2" "state" []).script ∧
    checksumArg (mkLiveTradingAlgorithm (some "a.py") "x = 1" "state" []) ≠
      checksumArg (mkLiveTradingAlgorithm (some "b.py") "x = 1" "state" []) := by
  refine ⟨rfl, ?_, ?_⟩ <;> decide

/-- C6: a callback invoked outside its permitted phase is rejected with a
specific error rather than queued or dropped: every `order` call made
during the before-trading-start phase yields `OrderInBeforeTradingStart`
and produces no broker state (so no broker order is placed), and every
`schedule_function` call made outside the before-trading-start phase
yields `ScheduleFunctionOutsideTradingStart`. -/
theorem phase_gates_reject_out_of_phase_calls :
    (∀ (broker : BrokerState) (sym : String) (amt : Int),
      orderMethod true broker sym amt =
        Except.error TradingError.orderInBeforeTradingStart) ∧
    (∀ (scheduled : List Nat) (f : Nat),
      schedule_function false scheduled f =
        Except.error TradingError.scheduleFunctionOutsideTradingStart) :=
  ⟨fun _ _ _ => rfl, fun _ _ => rfl⟩

/-- C8: for every symbol string on which the base lookup succeeds, `symbol`
returns the looked-up asset with `end_date` set to the current time plus
10,000 days, `auto_close_date` equal to that same `end_date`, and every
other field unchanged. -/
theorem symbol_extends_end_date (baseLookup : String → Option Asset) (now : Int)
    (sym : String) (a : Asset) (h : baseLookup sym = some a) :
    symbolMethod baseLookup now sym =
      some { a with end_date := now + tenThousandDays
                    auto_close_date := now + tenThousandDays } := by
  rw [symbolMethod, h]

/-- Witness for C8 at a concrete lookup, asset and time. -/
theorem symbol_extends_end_date_witness :
    symbolMethod sampleLookup 50 "AAPL" =
      some { sampleAsset with end_date := 50 + tenThousandDays
                              auto_close_date := 50 + tenThousandDays } :=
  symbol_extends_end_date sampleLookup 50 "AAPL" sampleAsset rfl

/-- C9: `batch_market_order` raises `NotImplementedError` for every input;
nothing is ever forwarded to the broker. -/
theorem batch_market_order_not_implemented :
    ∀ (broker : BrokerState) (share_counts : List Int),
      batch_market_order broker share_counts =
        Except.error TradingError.notImplemented :=
  fun _ _ => rfl

/-- C10: `cancel_order` forwards an `Order` object's `id` field to the
broker's `cancel_order`, and forwards any other value unchanged; the rest
of the broker state is untouched. -/
theorem cancel_order_forwards_id :
    (∀ (broker : BrokerState) (o : ZPOrder),
      cancel_order broker (OrderParam.ord o) =
        { broker with cancelled := broker.cancelled ++ [o.id] }) ∧
    (∀ (broker : BrokerState) (s : String),
      cancel_order broker (OrderParam.ident s) =
        { broker with cancelled := broker.cancelled ++ [s] }) :=
  ⟨fun _ _ => rfl, fun _ _ => rfl⟩

end Zipline
